import Mathlib

/-!
Shallow embedding of the H3imd3ll event-sourced property-graph store
(src/graph/{entity,relationship,fact,graph}.rs and
src/engine/{case,timeline,utils}.rs), together with proofs of the
specification's claims about it.

Modelling conventions:
* `Uuid` is modelled as `Nat` (uuids are only compared for equality).
* `chrono::DateTime` values are modelled as `Int` instants; the
  `with_timezone(&Utc)` conversion in `Fact::timestamp` preserves the
  instant, so timestamp comparison across time zones is Int comparison.
* `HashMap`/`BTreeMap` are modelled as association lists with
  lookup / insert-replacing / remove operations; `HashSet` as a list with
  membership insertion.  None of the proved properties depend on bucket or
  key ordering of the Rust containers.
* petgraph's `StableDiGraph` is modelled as an arena: a list of
  `(index, weight)` node entries plus a list of `(source index, target
  index, weight)` edges; `add_node` allocates a fresh index from a counter.
  (petgraph may reuse freed slots; the properties proved here are all about
  entity ids and topology and are independent of the slot allocator.)
* A Rust panic (the `unwrap` in `GraphDb::add_fact` on
  `RelationshipAdded`) is modelled as `Option.none`: the whole operation
  aborts and produces no state.
* File / serde I/O in `persist_facts` / `load_from_file` is abstracted:
  serialization followed by deserialization is the identity on the fact
  log, so `persist_facts` returns the log and `load_from_file` takes one.
-/

namespace H3imd3ll

/-- Association-list lookup, first match wins (models `HashMap::get` /
`BTreeMap::get` / petgraph `node_weight`). -/
def assocLookup {α β : Type} [DecidableEq α] (k : α) : List (α × β) → Option β
  | [] => none
  | p :: rest => if p.1 = k then some p.2 else assocLookup k rest

/-- Association-list insert, replacing an existing binding of the key
(models `HashMap::insert` / `BTreeMap::insert`). -/
def assocInsert {α β : Type} [DecidableEq α] (k : α) (v : β) : List (α × β) → List (α × β)
  | [] => [(k, v)]
  | p :: rest => if p.1 = k then (k, v) :: rest else p :: assocInsert k v rest

/-- Association-list removal of a key (models `HashMap::remove`). -/
def assocRemove {α β : Type} [DecidableEq α] (k : α) : List (α × β) → List (α × β)
  | [] => []
  | p :: rest => if p.1 = k then assocRemove k rest else p :: assocRemove k rest

abbrev Uuid := Nat

abbrev Timestamp := Int

/-- Property maps `BTreeMap<String, String>` (entity `properties`,
`updated_properties`). -/
abbrev Props := List (String × String)

/-- Iterating a `BTreeMap` and inserting every pair into another map
(the `EntityUpdated` merge loop in `GraphDb::add_fact`). -/
def mergeProps (old : Props) (up : Props) : Props :=
  up.foldl (fun acc kv => assocInsert kv.1 kv.2 acc) old

/-- src/graph/entity.rs: `EntityType`. -/
inductive EntityType
  | Person | PhoneNumber | Email | Company | Place | Action | Event | Unknown
deriving DecidableEq, Repr

/-- src/graph/entity.rs: `EntityType::from_properties`. -/
def EntityType.from_properties (props : Props) : EntityType :=
  match assocLookup "type" props with
  | some "Person" => EntityType.Person
  | some "PhoneNumber" => EntityType.PhoneNumber
  | some "Email" => EntityType.Email
  | some "Company" => EntityType.Company
  | some "Place" => EntityType.Place
  | some "Action" => EntityType.Action
  | some "Event" => EntityType.Event
  | _ => EntityType.Unknown

/-- src/graph/entity.rs: `Entity`. -/
structure Entity where
  id : Uuid
  name : String
  entity_type : EntityType
  properties : Props
deriving DecidableEq, Repr

/-- src/graph/relationship.rs: `RelationshipType`. -/
inductive RelationshipType
  | WorksAt | LocatedAt
deriving DecidableEq, Repr

/-- src/graph/relationship.rs: `RelationshipType::from_str` (an
unparseable string is `Err(())`, here `none`). -/
def RelationshipType.fromStr (s : String) : Option RelationshipType :=
  match s with
  | "WorksAt" => some RelationshipType.WorksAt
  | "LocatedAt" => some RelationshipType.LocatedAt
  | _ => none

/-- src/graph/relationship.rs: `Relationship`. -/
structure Relationship where
  source_id : Uuid
  target_id : Uuid
  relationship_type : RelationshipType
  valid_from : Int
  valid_to : Option Int
deriving DecidableEq, Repr

/-- src/graph/fact.rs: the `Fact` tagged union. -/
inductive Fact
  | EntityCreated (entity_id : Uuid) (timestamp : Timestamp) (properties : Props)
  | EntityUpdated (entity_id : Uuid) (timestamp : Timestamp) (updated_properties : Props)
  | EntityDeleted (entity_id : Uuid) (timestamp : Timestamp)
  | RelationshipAdded (source_id : Uuid) (target_id : Uuid)
      (relationship_type : String) (timestamp : Timestamp)
      (valid_from : Int) (valid_to : Option Int)
  | RelationshipInvalidated (source_id : Uuid) (target_id : Uuid) (timestamp : Timestamp)
deriving DecidableEq, Repr

/-- src/graph/fact.rs: `Fact::timestamp` (the `with_timezone(&Utc)`
conversion preserves the instant). -/
def Fact.timestamp : Fact → Timestamp
  | .EntityCreated _ ts _ => ts
  | .EntityUpdated _ ts _ => ts
  | .EntityDeleted _ ts => ts
  | .RelationshipAdded _ _ _ ts _ _ => ts
  | .RelationshipInvalidated _ _ ts => ts

/-- src/graph/fact.rs: `Fact::involves_any`. -/
def Fact.involves_any (f : Fact) (entity_ids : List Uuid) : Bool :=
  match f with
  | .EntityCreated entity_id _ _ => entity_ids.contains entity_id
  | .EntityUpdated entity_id _ _ => entity_ids.contains entity_id
  | .EntityDeleted entity_id _ => entity_ids.contains entity_id
  | .RelationshipAdded source_id target_id _ _ _ _ =>
      entity_ids.contains source_id || entity_ids.contains target_id
  | .RelationshipInvalidated source_id target_id _ =>
      entity_ids.contains source_id || entity_ids.contains target_id

/-- src/graph/fact.rs: `FactStore`, the batch handed to `add_fact`. -/
structure FactStore where
  entities : List Entity
  relationships : List Fact
deriving DecidableEq, Repr

/-- src/graph/graph.rs: `GraphDb`.  `nodes`/`edges` are the
`StableDiGraph` arena, `next_node_idx` its index allocator. -/
structure GraphDb where
  nodes : List (Nat × Entity)
  edges : List (Nat × Nat × Relationship)
  uuid_index_map : List (Uuid × Nat)
  event_log : List Fact
  next_node_idx : Nat
deriving DecidableEq, Repr

/-- src/graph/graph.rs: `GraphDb::new`. -/
def GraphDb.new : GraphDb :=
  { nodes := [], edges := [], uuid_index_map := [], event_log := [], next_node_idx := 0 }

/-- src/graph/graph.rs: `GraphDb::add_entity` — skips if the uuid is
already indexed, otherwise adds a node and indexes it. -/
def GraphDb.add_entity (db : GraphDb) (entity : Entity) : GraphDb :=
  if (assocLookup entity.id db.uuid_index_map).isSome then db
  else
    { db with
      nodes := db.nodes ++ [(db.next_node_idx, entity)],
      uuid_index_map := assocInsert entity.id db.next_node_idx db.uuid_index_map,
      next_node_idx := db.next_node_idx + 1 }

/-- src/graph/graph.rs: `GraphDb::add_relationship` — adds a directed
edge only when both endpoints resolve in the index; otherwise does
nothing. -/
def GraphDb.add_relationship (db : GraphDb) (r : Relationship) : GraphDb :=
  match assocLookup r.source_id db.uuid_index_map,
        assocLookup r.target_id db.uuid_index_map with
  | some s, some t => { db with edges := db.edges ++ [(s, t, r)] }
  | _, _ => db

/-- src/graph/graph.rs: `GraphDb::get_entity`. -/
def GraphDb.get_entity (db : GraphDb) (uuid : Uuid) : Option Entity :=
  (assocLookup uuid db.uuid_index_map).bind (fun idx => assocLookup idx db.nodes)

/-- petgraph `graph.neighbors(i)`: targets of outgoing edges of node
index `i` (edge iteration order is irrelevant to the properties
proved here). -/
def GraphDb.neighborsOut (db : GraphDb) (i : Nat) : List Nat :=
  db.edges.filterMap (fun ed => if ed.1 = i then some ed.2.1 else none)

/-- The `Entity` value built inline by the `EntityCreated` arm of
`GraphDb::add_fact`: name from the `"name"` property
(`unwrap_or_default` = empty string), type derived from the `"type"`
property. -/
def mkCreatedEntity (entity_id : Uuid) (properties : Props) : Entity :=
  { id := entity_id,
    name := (assocLookup "name" properties).getD "",
    entity_type := EntityType.from_properties properties,
    properties := properties }

/-- The `EntityUpdated` arm of `GraphDb::add_fact`: mutate the node at
`node_idx` by inserting every updated key into its properties. -/
def updateEntityProps (node_idx : Nat) (up : Props) :
    List (Nat × Entity) → List (Nat × Entity)
  | [] => []
  | p :: rest =>
      if p.1 = node_idx then (p.1, { p.2 with properties := mergeProps p.2.properties up }) :: rest
      else p :: updateEntityProps node_idx up rest

/-- One arm of the `match` in `GraphDb::add_fact`: the projection effect
of a single `Fact` (without the log append).  `none` models the panic of
`relationship_type.parse().unwrap()` on an unparseable string. -/
def applyFactProj (db : GraphDb) (fact : Fact) : Option GraphDb :=
  match fact with
  | .EntityCreated entity_id _ properties =>
      some (db.add_entity (mkCreatedEntity entity_id properties))
  | .EntityUpdated entity_id _ updated_properties =>
      some (match assocLookup entity_id db.uuid_index_map with
        | some node_idx =>
            { db with nodes := updateEntityProps node_idx updated_properties db.nodes }
        | none => db)
  | .EntityDeleted entity_id _ =>
      some (match assocLookup entity_id db.uuid_index_map with
        | some node_idx =>
            { db with
              nodes := db.nodes.filter (fun p => decide (p.1 ≠ node_idx)),
              edges := db.edges.filter (fun ed => decide (ed.1 ≠ node_idx ∧ ed.2.1 ≠ node_idx)),
              uuid_index_map := assocRemove entity_id db.uuid_index_map }
        | none => db)
  | .RelationshipAdded source_id target_id relationship_type _ valid_from valid_to =>
      (RelationshipType.fromStr relationship_type).map (fun rt =>
        db.add_relationship
          { source_id := source_id, target_id := target_id,
            relationship_type := rt, valid_from := valid_from, valid_to := valid_to })
  | .RelationshipInvalidated source_id target_id _ =>
      some (match assocLookup source_id db.uuid_index_map,
                  assocLookup target_id db.uuid_index_map with
        | some s, some t =>
            { db with edges := db.edges.filter (fun ed => decide (¬ (ed.1 = s ∧ ed.2.1 = t))) }
        | _, _ => db)

/-- One iteration of the fact loop in `GraphDb::add_fact`: apply the
projection effect, then push the fact onto the event log. -/
def applyFactLogged (db : GraphDb) (fact : Fact) : Option GraphDb :=
  (applyFactProj db fact).map (fun db2 => { db2 with event_log := db2.event_log ++ [fact] })

/-- The fact loop of `GraphDb::add_fact` over a list of facts. -/
def applyFactsSeq : GraphDb → List Fact → Option GraphDb
  | db, [] => some db
  | db, f :: rest =>
      match applyFactLogged db f with
      | some db2 => applyFactsSeq db2 rest
      | none => none

/-- src/graph/graph.rs: `GraphDb::add_fact` — insert the batch's direct
entities into the projection, then apply and log each fact in order. -/
def GraphDb.add_fact (db : GraphDb) (fact_store : FactStore) : Option GraphDb :=
  applyFactsSeq (fact_store.entities.foldl GraphDb.add_entity db) fact_store.relationships

/-- src/graph/graph.rs: `GraphDb::persist_facts` — serializes the whole
event log (serde + file I/O abstracted as the identity on the log). -/
def GraphDb.persist_facts (db : GraphDb) : List Fact :=
  db.event_log

/-- The replay loop of `GraphDb::load_from_file`: one `add_fact` call
with a singleton fact batch per logged fact. -/
def loadReplay : GraphDb → List Fact → Option GraphDb
  | db, [] => some db
  | db, f :: rest =>
      match db.add_fact { entities := [], relationships := [f] } with
      | some db2 => loadReplay db2 rest
      | none => none

/-- src/graph/graph.rs: `GraphDb::load_from_file` — replay the
deserialized log against a fresh empty store. -/
def load_from_file (log : List Fact) : Option GraphDb :=
  loadReplay GraphDb.new log

/-- A sequence of `add_fact` calls (batch ingestion as driven by the
console). -/
def applyBatches : GraphDb → List FactStore → Option GraphDb
  | db, [] => some db
  | db, fs :: rest =>
      match db.add_fact fs with
      | some db2 => applyBatches db2 rest
      | none => none

/-! ## Engine layer: sorting, dedup, timeline, case builder -/

/-- Stable insertion of a fact into a timestamp-sorted list.  Together
with `sortFactsByTime` this models Rust's stable `sort_by_key` on
`Fact::timestamp` (used both by `utils::sort_facts_by_time` and by the
inline sort in `generate_timeline`). -/
def insertFactByTime (f : Fact) : List Fact → List Fact
  | [] => [f]
  | g :: rest =>
      if f.timestamp ≤ g.timestamp then f :: g :: rest
      else g :: insertFactByTime f rest

/-- src/engine/utils.rs: `sort_facts_by_time` — stable ascending sort by
timestamp. -/
def sortFactsByTime : List Fact → List Fact
  | [] => []
  | f :: rest => insertFactByTime f (sortFactsByTime rest)

/-- The loop of src/engine/utils.rs `deduplicate_facts`: `seen` is the
`HashSet`, a fact is kept exactly when it was not seen before. -/
def dedupGo (seen : List Fact) : List Fact → List Fact
  | [] => []
  | f :: rest =>
      if f ∈ seen then dedupGo seen rest
      else f :: dedupGo (f :: seen) rest

/-- src/engine/utils.rs: `deduplicate_facts`. -/
def deduplicate_facts (facts : List Fact) : List Fact :=
  dedupGo [] facts

/-- The spec's description of deduplication, stated independently of the
implementation: keep each fact's first occurrence, dropping the later
structural duplicates ("remove exact structural duplicates, preserving
first-occurrence order"). -/
def firstOccurrences : List Fact → List Fact
  | [] => []
  | f :: rest => f :: firstOccurrences (rest.filter (fun g => decide (g ≠ f)))
termination_by l => l.length
decreasing_by
  exact Nat.lt_succ_of_le (List.length_filter_le _ _)

/-- src/engine/timeline.rs: `TimelineQuery` (`from`/`to` renamed to
`fromTime`/`toTime` because `from` is a Lean keyword). -/
structure TimelineQuery where
  entity_id : Option Uuid
  fromTime : Option Timestamp
  toTime : Option Timestamp

/-- src/engine/timeline.rs: `TimelineResult`. -/
structure TimelineResult where
  facts : List Fact

/-- The per-fact filter of `generate_timeline` (`Option.all` is Rust's
`map_or(true, ...)`, so a missing query field imposes no constraint). -/
def timelineMatches (query : TimelineQuery) (fact : Fact) : Bool :=
  match fact with
  | .EntityCreated entity_id ts _
  | .EntityUpdated entity_id ts _
  | .EntityDeleted entity_id ts =>
      query.entity_id.all (fun id => decide (id = entity_id)) &&
      query.fromTime.all (fun f => decide (f ≤ ts)) &&
      query.toTime.all (fun t => decide (ts ≤ t))
  | .RelationshipAdded source_id target_id _ ts _ _
  | .RelationshipInvalidated source_id target_id ts =>
      query.entity_id.all (fun id => decide (id = source_id) || decide (id = target_id)) &&
      (query.fromTime.all (fun f => decide (f ≤ ts)) &&
       query.toTime.all (fun t => decide (ts ≤ t)))

/-- src/engine/timeline.rs: `generate_timeline` — scan the log, keep the
matching facts, sort ascending by timestamp. -/
def generate_timeline (db : GraphDb) (query : TimelineQuery) : TimelineResult :=
  { facts := sortFactsByTime (db.event_log.filter (timelineMatches query)) }

/-- src/engine/case.rs: `Case` (the `created_at`/`id` values produced by
`Local::now()`/`Uuid::new_v4()` are taken as parameters of `build`). -/
structure Case where
  id : Uuid
  name : String
  description : String
  created_at : Timestamp
  related_entity_ids : List Uuid
  facts : List Fact

/-- src/engine/case.rs: `CaseBuilder` (minus the `&GraphDb` reference,
which is passed to `build` directly). -/
structure CaseBuilder where
  seed_entity_id : Uuid
  max_depth : Nat
  fromTime : Option Timestamp
  toTime : Option Timestamp

/-- src/engine/case.rs: `CaseBuilder::new` — default depth 2, no time
window. -/
def CaseBuilder.new (seed_entity_id : Uuid) : CaseBuilder :=
  { seed_entity_id := seed_entity_id, max_depth := 2, fromTime := none, toTime := none }

/-- src/engine/case.rs: `CaseBuilder::with_max_depth`. -/
def CaseBuilder.with_max_depth (b : CaseBuilder) (depth : Nat) : CaseBuilder :=
  { b with max_depth := depth }

/-- src/engine/case.rs: `CaseBuilder::with_time_range`. -/
def CaseBuilder.with_time_range (b : CaseBuilder)
    (fromTime toTime : Option Timestamp) : CaseBuilder :=
  { b with fromTime := fromTime, toTime := toTime }

/-- Number of node entity ids not yet visited; the primary termination
measure of the BFS loop. -/
def unvisitedCount (db : GraphDb) (visited : List Uuid) : Nat :=
  ((db.nodes.map (fun p => p.2.id)).filter (fun u => decide (u ∉ visited))).length

theorem length_filter_mono {α : Type} (p q : α → Bool)
    (h : ∀ x, q x = true → p x = true) :
    ∀ l : List α, (l.filter q).length ≤ (l.filter p).length := by
  intro l
  induction l with
  | nil => simp
  | cons b l ih =>
      by_cases hq : q b = true
      · rw [List.filter_cons_of_pos hq, List.filter_cons_of_pos (h b hq)]
        simpa using ih
      · rw [List.filter_cons_of_neg (by simpa using hq)]
        cases hp : p b
        · rw [List.filter_cons_of_neg (by simp [hp])]
          exact ih
        · rw [List.filter_cons_of_pos hp]
          exact Nat.le_succ_of_le ih

theorem filter_notMem_cons_length_lt {l vis : List Nat} {a : Nat}
    (ha : a ∈ l) (hv : a ∉ vis) :
    (l.filter (fun u => decide (u ∉ a :: vis))).length <
      (l.filter (fun u => decide (u ∉ vis))).length := by
  induction l with
  | nil => cases ha
  | cons b l ih =>
      have hmono := length_filter_mono (α := Nat)
        (fun u => decide (u ∉ vis)) (fun u => decide (u ∉ a :: vis))
        (by intro x hx; simp at hx ⊢; exact hx.2) l
      by_cases hb : b = a
      · subst hb
        rw [List.filter_cons_of_neg (by simp), List.filter_cons_of_pos (by simpa using hv)]
        exact Nat.lt_succ_of_le hmono
      · have ha' : a ∈ l := by
          cases ha with
          | head => exact absurd rfl hb
          | tail _ h => exact h
        by_cases hbv : b ∈ vis
        · rw [List.filter_cons_of_neg (by simp [hbv]),
              List.filter_cons_of_neg (by simp [hbv])]
          exact ih ha'
        · rw [List.filter_cons_of_pos (by simp [hbv, hb]),
              List.filter_cons_of_pos (by simpa using hbv)]
          exact Nat.succ_lt_succ (ih ha')

theorem assocLookup_mem {α β : Type} [DecidableEq α] {k : α} {v : β} :
    ∀ {l : List (α × β)}, assocLookup k l = some v → (k, v) ∈ l := by
  intro l
  induction l with
  | nil => intro h; cases h
  | cons p rest ih =>
      intro h
      obtain ⟨a, b⟩ := p
      rw [assocLookup] at h
      split at h
      · rename_i heq
        have heq' : a = k := heq
        injection h with hv
        subst heq'
        subst hv
        exact List.mem_cons_self _ _
      · exact List.mem_cons_of_mem _ (ih h)

/-- The BFS loop of src/engine/case.rs `collect_related_entities`:
queue of `(node index, depth)` pairs, `visited` the `HashSet` of seen
entity ids, `related` the accumulated result in discovery order. -/
def bfsLoop (db : GraphDb) (max_depth : Nat) :
    List (Nat × Nat) → List Uuid → List Uuid → List Uuid
  | [], _, related => related
  | (node_idx, depth) :: rest, visited, related =>
      if depth > max_depth then bfsLoop db max_depth rest visited related
      else
        match h : assocLookup node_idx db.nodes with
        | none => bfsLoop db max_depth rest visited related
        | some entity =>
            if entity.id ∈ visited then bfsLoop db max_depth rest visited related
            else
              bfsLoop db max_depth
                (rest ++ (db.neighborsOut node_idx).map (fun n => (n, depth + 1)))
                (entity.id :: visited) (related ++ [entity.id])
termination_by queue visited _ => (unvisitedCount db visited, queue.length)
decreasing_by
  · apply Prod.Lex.right
    simp only [List.length_cons]
    omega
  · apply Prod.Lex.right
    simp only [List.length_cons]
    omega
  · apply Prod.Lex.right
    simp only [List.length_cons]
    omega
  · apply Prod.Lex.left
    apply filter_notMem_cons_length_lt
    · exact List.mem_map_of_mem (fun p => p.2.id) (assocLookup_mem h)
    · assumption

/-- src/engine/case.rs: `CaseBuilder::collect_related_entities`. -/
def collect_related_entities (db : GraphDb) (seed_entity_id : Uuid)
    (max_depth : Nat) : List Uuid :=
  match assocLookup seed_entity_id db.uuid_index_map with
  | some start_idx => bfsLoop db max_depth [(start_idx, 0)] [] []
  | none => []

/-- Steps 2–3 of `CaseBuilder::build`: filter the log by time window and
involvement, then sort ascending by timestamp. -/
def caseSelectFacts (db : GraphDb) (related : List Uuid)
    (fromTime toTime : Option Timestamp) : List Fact :=
  sortFactsByTime (db.event_log.filter (fun fact =>
    (fromTime.all (fun f => decide (f ≤ fact.timestamp)) &&
     toTime.all (fun t => decide (fact.timestamp ≤ t))) &&
    fact.involves_any related))

/-- src/engine/case.rs: `CaseBuilder::build` — BFS, fact selection,
sort, dedup, and assembly of the immutable `Case`. -/
def CaseBuilder.build (b : CaseBuilder) (db : GraphDb)
    (name description : String) (case_id : Uuid) (now : Timestamp) : Case :=
  let related_entities := collect_related_entities db b.seed_entity_id b.max_depth
  let relevant_facts := caseSelectFacts db related_entities b.fromTime b.toTime
  { id := case_id, name := name, description := description,
    created_at := now, related_entity_ids := related_entities,
    facts := deduplicate_facts relevant_facts }

/-! ## Derived notions used to state the claims -/

/-- Replace only the timestamp of a fact (used to state that facts
differing only in their timestamp are distinct and not deduplicated). -/
def Fact.withTimestamp (f : Fact) (t : Timestamp) : Fact :=
  match f with
  | .EntityCreated entity_id _ properties => .EntityCreated entity_id t properties
  | .EntityUpdated entity_id _ updated_properties => .EntityUpdated entity_id t updated_properties
  | .EntityDeleted entity_id _ => .EntityDeleted entity_id t
  | .RelationshipAdded source_id target_id relationship_type _ valid_from valid_to =>
      .RelationshipAdded source_id target_id relationship_type t valid_from valid_to
  | .RelationshipInvalidated source_id target_id _ => .RelationshipInvalidated source_id target_id t

/-- The entity-involvement part of `timelineMatches` (the non-window
conjunct of the filter in `generate_timeline`). -/
def timelineInvolves (eid : Option Uuid) (fact : Fact) : Bool :=
  match fact with
  | .EntityCreated entity_id _ _
  | .EntityUpdated entity_id _ _
  | .EntityDeleted entity_id _ =>
      eid.all (fun id => decide (id = entity_id))
  | .RelationshipAdded source_id target_id _ _ _ _
  | .RelationshipInvalidated source_id target_id _ =>
      eid.all (fun id => decide (id = source_id) || decide (id = target_id))

/-- Reachability from node index `s` in at most `n` hops following only
outgoing (directed) edges of the projection. -/
inductive OutReach (db : GraphDb) (s : Nat) : Nat → Nat → Prop
  | here : OutReach db s 0 s
  | step {n j k : Nat} {r : Relationship} :
      OutReach db s n j → (j, k, r) ∈ db.edges → OutReach db s (n + 1) k

/-- Entity id `id` is reachable from the seed entity via outgoing edges
in at most `d` hops. -/
def ReachableIdWithin (db : GraphDb) (seed : Uuid) (d : Nat) (id : Uuid) : Prop :=
  ∃ start_idx n i e,
    assocLookup seed db.uuid_index_map = some start_idx ∧
    n ≤ d ∧ OutReach db start_idx n i ∧
    assocLookup i db.nodes = some e ∧ e.id = id

/-- The identity-index/node-set consistency stated by claim C10: every
indexed uuid maps to a live node carrying that uuid, and every live
node's entity id is indexed (pointing back at that node). -/
def indexNodesConsistent (db : GraphDb) : Prop :=
  (∀ u i, assocLookup u db.uuid_index_map = some i →
      ∃ e, assocLookup i db.nodes = some e ∧ e.id = u) ∧
  (∀ p ∈ db.nodes, assocLookup p.2.id db.uuid_index_map = some p.1)

/-- Auxiliary well-formedness of a store: node indices are below the
allocator counter and are mutually distinct, and index and node set are
consistent.  This is the full invariant preserved by every operation. -/
def StoreInvariant (db : GraphDb) : Prop :=
  (∀ p ∈ db.nodes, p.1 < db.next_node_idx) ∧
  (db.nodes.map Prod.fst).Nodup ∧
  indexNodesConsistent db

/-! ## Lemmas about sorting -/

theorem insertFactByTime_perm (f : Fact) (l : List Fact) :
    List.Perm (insertFactByTime f l) (f :: l) := by
  induction l with
  | nil => rfl
  | cons g rest ih =>
      rw [insertFactByTime]
      split
      · rfl
      · exact (ih.cons g).trans (List.Perm.swap f g rest)

theorem sortFactsByTime_perm (l : List Fact) : List.Perm (sortFactsByTime l) l := by
  induction l with
  | nil => rfl
  | cons f rest ih =>
      exact (insertFactByTime_perm f (sortFactsByTime rest)).trans (ih.cons f)

theorem mem_sortFactsByTime {f : Fact} {l : List Fact} :
    f ∈ sortFactsByTime l ↔ f ∈ l :=
  (sortFactsByTime_perm l).mem_iff

theorem insertFactByTime_pairwise {f : Fact} {l : List Fact}
    (h : l.Pairwise (fun a b => a.timestamp ≤ b.timestamp)) :
    (insertFactByTime f l).Pairwise (fun a b => a.timestamp ≤ b.timestamp) := by
  induction l with
  | nil => simp [insertFactByTime]
  | cons g rest ih =>
      rw [insertFactByTime]
      split
      · rename_i hle
        refine List.Pairwise.cons ?_ h
        intro x hx
        rcases List.mem_cons.mp hx with hx | hx
        · exact hx ▸ hle
        · exact le_trans hle ((List.pairwise_cons.mp h).1 x hx)
      · rename_i hgt
        have hle : g.timestamp ≤ f.timestamp := le_of_not_le hgt
        obtain ⟨hg, hrest⟩ := List.pairwise_cons.mp h
        refine List.Pairwise.cons ?_ (ih hrest)
        intro x hx
        rcases List.mem_cons.mp ((insertFactByTime_perm f rest).mem_iff.mp hx) with hx | hx
        · exact hx ▸ hle
        · exact hg x hx

theorem sortFactsByTime_pairwise (l : List Fact) :
    (sortFactsByTime l).Pairwise (fun a b => a.timestamp ≤ b.timestamp) := by
  induction l with
  | nil => simp [sortFactsByTime]
  | cons f rest ih => exact insertFactByTime_pairwise ih

/-! ## Lemmas about deduplication -/

theorem dedupGo_sublist : ∀ (l seen : List Fact), (dedupGo seen l).Sublist l := by
  intro l
  induction l with
  | nil => intro seen; simp [dedupGo]
  | cons f rest ih =>
      intro seen
      rw [dedupGo]
      split
      · exact (ih seen).cons f
      · exact (ih (f :: seen)).cons₂ f

theorem mem_dedupGo {x : Fact} :
    ∀ {l seen : List Fact}, x ∈ dedupGo seen l ↔ x ∈ l ∧ x ∉ seen := by
  intro l
  induction l with
  | nil => intro seen; simp [dedupGo]
  | cons f rest ih =>
      intro seen
      rw [dedupGo]
      split
      · rename_i hf
        rw [ih]
        constructor
        · rintro ⟨hx, hs⟩
          exact ⟨List.mem_cons_of_mem f hx, hs⟩
        · rintro ⟨hx, hs⟩
          rcases List.mem_cons.mp hx with hx | hx
          · exact absurd (hx ▸ hf) hs
          · exact ⟨hx, hs⟩
      · rename_i hf
        simp only [List.mem_cons, ih, List.mem_cons]
        constructor
        · rintro (rfl | ⟨hx, hs⟩)
          · exact ⟨Or.inl rfl, hf⟩
          · exact ⟨Or.inr hx, fun hx2 => hs (Or.inr hx2)⟩
        · rintro ⟨rfl | hx, hs⟩
          · exact Or.inl rfl
          · by_cases hxf : x = f
            · exact Or.inl hxf
            · exact Or.inr ⟨hx, fun h2 => by
                rcases h2 with h2 | h2
                · exact hxf h2
                · exact hs h2⟩

theorem dedupGo_nodup : ∀ (l seen : List Fact), (dedupGo seen l).Nodup := by
  intro l
  induction l with
  | nil => intro seen; simp [dedupGo]
  | cons f rest ih =>
      intro seen
      rw [dedupGo]
      split
      · exact ih seen
      · refine List.Nodup.cons ?_ (ih (f :: seen))
        intro hmem
        exact (mem_dedupGo.mp hmem).2 (List.mem_cons_self f seen)

theorem dedupGo_eq_firstOccurrences :
    ∀ (l seen : List Fact),
      dedupGo seen l = firstOccurrences (l.filter (fun g => decide (g ∉ seen))) := by
  intro l
  induction l with
  | nil => intro seen; simp [dedupGo, firstOccurrences]
  | cons f rest ih =>
      intro seen
      rw [dedupGo]
      split
      · rename_i hf
        rw [List.filter_cons_of_neg (by simpa using hf)]
        exact ih seen
      · rename_i hf
        rw [List.filter_cons_of_pos (by simpa using hf), firstOccurrences, ih (f :: seen),
           List.filter_filter]
        congr 1
        congr 1
        apply List.filter_congr
        intro g _
        by_cases hgf : g = f
        · simp [hgf]
        · simp [hgf, List.mem_cons]

theorem deduplicate_facts_eq_firstOccurrences (l : List Fact) :
    deduplicate_facts l = firstOccurrences l := by
  rw [deduplicate_facts, dedupGo_eq_firstOccurrences]
  congr 1
  simp

theorem withTimestamp_ne {f : Fact} {t : Timestamp}
    (h : t ≠ f.timestamp) : Fact.withTimestamp f t ≠ f := by
  cases f <;> simp [Fact.withTimestamp, Fact.timestamp] at h ⊢ <;> intro hc <;> exact h hc

theorem dedupGo_pair_ne {f g : Fact} (h : g ≠ f) :
    deduplicate_facts [f, g] = [f, g] := by
  simp [deduplicate_facts, dedupGo, h]

/-! ## Lemmas about association lists -/

theorem assocLookup_insert_self {α β : Type} [DecidableEq α] (k : α) (v : β) :
    ∀ l : List (α × β), assocLookup k (assocInsert k v l) = some v := by
  intro l
  induction l with
  | nil => simp [assocInsert, assocLookup]
  | cons p rest ih =>
      rw [assocInsert]
      split
      · rw [assocLookup]; simp
      · rw [assocLookup]
        rename_i hne
        simp only [if_neg hne]
        exact ih

theorem assocLookup_insert_ne {α β : Type} [DecidableEq α] {k k' : α} (v : β)
    (h : k' ≠ k) :
    ∀ l : List (α × β), assocLookup k' (assocInsert k v l) = assocLookup k' l := by
  intro l
  induction l with
  | nil => simp [assocInsert, assocLookup, Ne.symm h]
  | cons p rest ih =>
      rw [assocInsert]
      split
      · rename_i heq
        rw [assocLookup, assocLookup, heq]
        simp [Ne.symm h]
      · rw [assocLookup, assocLookup]
        split
        · rfl
        · exact ih

theorem assocLookup_remove_self {α β : Type} [DecidableEq α] (k : α) :
    ∀ l : List (α × β), assocLookup k (assocRemove k l) = none := by
  intro l
  induction l with
  | nil => simp [assocRemove, assocLookup]
  | cons p rest ih =>
      rw [assocRemove]
      split
      · exact ih
      · rename_i hne
        rw [assocLookup]
        simp only [if_neg hne]
        exact ih

theorem assocLookup_remove_ne {α β : Type} [DecidableEq α] {k k' : α}
    (h : k' ≠ k) :
    ∀ l : List (α × β), assocLookup k' (assocRemove k l) = assocLookup k' l := by
  intro l
  induction l with
  | nil => simp [assocRemove]
  | cons p rest ih =>
      rw [assocRemove]
      split
      · rename_i heq
        rw [assocLookup]
        have : ¬ p.1 = k' := by rw [heq]; exact Ne.symm h
        simp only [if_neg this]
        exact ih
      · rw [assocLookup, assocLookup]
        split
        · rfl
        · exact ih

theorem assocLookup_append {α β : Type} [DecidableEq α] (k : α) :
    ∀ l1 l2 : List (α × β),
      assocLookup k (l1 ++ l2) =
        match assocLookup k l1 with
        | some v => some v
        | none => assocLookup k l2 := by
  intro l1 l2
  induction l1 with
  | nil => simp [assocLookup]
  | cons p rest ih =>
      rw [List.cons_append, assocLookup, assocLookup]
      split
      · rfl
      · exact ih

theorem assocLookup_eq_none_of_not_mem_keys {α β : Type} [DecidableEq α] {k : α}
    {l : List (α × β)} (h : k ∉ l.map Prod.fst) : assocLookup k l = none := by
  induction l with
  | nil => rfl
  | cons p rest ih =>
      rw [assocLookup]
      rw [List.map_cons, List.mem_cons] at h
      push_neg at h
      rw [if_neg (fun hc => h.1 hc.symm)]
      exact ih h.2

theorem assocLookup_mergeProps {old : Props} {up : Props}
    (hup : (up.map Prod.fst).Nodup) (k : String) :
    assocLookup k (mergeProps old up) =
      match assocLookup k up with
      | some v => some v
      | none => assocLookup k old := by
  induction up generalizing old with
  | nil => simp [mergeProps, assocLookup]
  | cons kv rest ih =>
      obtain ⟨k1, v1⟩ := kv
      rw [List.map_cons, List.nodup_cons] at hup
      have step : mergeProps old ((k1, v1) :: rest) = mergeProps (assocInsert k1 v1 old) rest := rfl
      rw [step, ih hup.2]
      by_cases hk : k = k1
      · subst hk
        rw [assocLookup_eq_none_of_not_mem_keys hup.1]
        rw [assocLookup]
        simp [assocLookup_insert_self]
      · rw [assocLookup]
        simp only [if_neg (fun hc : k1 = k => hk hc.symm)]
        split
        · rfl
        · exact assocLookup_insert_ne v1 hk old

/-! ## Claim C6: deduplication -/

/-- C6: `deduplicate_facts` returns exactly the first occurrence of each
structurally-distinct fact (it equals the spec-level first-occurrence
function), in the input's relative order (it is a sublist of the input),
with no two structurally-equal elements (`Nodup`), losing no distinct
fact (same membership); and two facts that differ only in their
timestamp are not duplicates: deduplication keeps both. -/
theorem deduplicate_facts_first_occurrence_order :
    ∀ l : List Fact,
      deduplicate_facts l = firstOccurrences l ∧
      (deduplicate_facts l).Sublist l ∧
      (deduplicate_facts l).Nodup ∧
      (∀ x : Fact, x ∈ deduplicate_facts l ↔ x ∈ l) ∧
      (∀ (f : Fact) (t : Timestamp), t ≠ f.timestamp →
        deduplicate_facts [f, Fact.withTimestamp f t] = [f, Fact.withTimestamp f t]) := by
  intro l
  refine ⟨deduplicate_facts_eq_firstOccurrences l, dedupGo_sublist l [],
    dedupGo_nodup l [], ?_, ?_⟩
  · intro x
    rw [deduplicate_facts, mem_dedupGo]
    simp
  · intro f t ht
    exact dedupGo_pair_ne (withTimestamp_ne ht)

/-! ## Claim C1: unparsable relationship type aborts the whole batch -/

/-- C1 (evidence of the code bug): applying a batch whose middle fact is
a `RelationshipAdded` with the unparsable `relationship_type` string
`"Bogus"` makes `add_fact` abort (the modelled
`relationship_type.parse().unwrap()` panic): no state results and the
remaining facts of the batch are not applied, contrary to the claimed
skip-and-continue behaviour. -/
theorem add_fact_aborts_on_unparsable_relationship_type :
    GraphDb.add_fact GraphDb.new
      { entities := [],
        relationships :=
          [ Fact.EntityCreated 1 0 [],
            Fact.RelationshipAdded 1 2 "Bogus" 0 2020 none,
            Fact.EntityCreated 2 0 [] ] } = none := by
  rfl

/-! ## Claims C7 and C5: time windows and timeline/case-selection
equivalence -/

theorem mem_caseSelectFacts {db : GraphDb} {related : List Uuid}
    {fromTime toTime : Option Timestamp} {f : Fact} :
    f ∈ caseSelectFacts db related fromTime toTime ↔
      f ∈ db.event_log ∧ (∀ a ∈ fromTime, a ≤ f.timestamp) ∧
        (∀ b ∈ toTime, f.timestamp ≤ b) ∧ f.involves_any related = true := by
  rw [caseSelectFacts, mem_sortFactsByTime, List.mem_filter]
  apply and_congr_right
  intro _
  cases fromTime <;> cases toTime <;>
    simp [Option.all, and_assoc]

theorem mem_generate_timeline {db : GraphDb} {eid : Option Uuid}
    {fromTime toTime : Option Timestamp} {f : Fact} :
    f ∈ (generate_timeline db
        { entity_id := eid, fromTime := fromTime, toTime := toTime }).facts ↔
      f ∈ db.event_log ∧ (∀ a ∈ fromTime, a ≤ f.timestamp) ∧
        (∀ b ∈ toTime, f.timestamp ≤ b) ∧ timelineInvolves eid f = true := by
  rw [generate_timeline]
  rw [show (TimelineResult.mk (sortFactsByTime (db.event_log.filter
        (timelineMatches { entity_id := eid, fromTime := fromTime, toTime := toTime })))).facts =
      sortFactsByTime (db.event_log.filter
        (timelineMatches { entity_id := eid, fromTime := fromTime, toTime := toTime })) from rfl]
  rw [mem_sortFactsByTime, List.mem_filter]
  apply and_congr_right
  intro _
  cases f <;> cases fromTime <;> cases toTime <;>
    simp [timelineMatches, timelineInvolves, Option.all, Fact.timestamp, and_assoc] <;>
    tauto

/-- C7: in both the Case Builder's fact-selection step and
`generate_timeline`, the `[from, to]` window is inclusive at both ends
(a fact with timestamp equal to a bound satisfies the `≤`), a fact
strictly outside a present bound is excluded (the `≤` fails), and an
absent bound imposes no constraint (the quantifier over `none` is
vacuous). -/
theorem time_window_inclusive_both_ends :
    ∀ (db : GraphDb) (related : List Uuid) (eid : Option Uuid)
      (fromTime toTime : Option Timestamp) (f : Fact),
      (f ∈ caseSelectFacts db related fromTime toTime ↔
        f ∈ db.event_log ∧ (∀ a ∈ fromTime, a ≤ f.timestamp) ∧
          (∀ b ∈ toTime, f.timestamp ≤ b) ∧ f.involves_any related = true) ∧
      (f ∈ (generate_timeline db
          { entity_id := eid, fromTime := fromTime, toTime := toTime }).facts ↔
        f ∈ db.event_log ∧ (∀ a ∈ fromTime, a ≤ f.timestamp) ∧
          (∀ b ∈ toTime, f.timestamp ≤ b) ∧ timelineInvolves eid f = true) :=
  fun _ _ _ _ _ _ => ⟨mem_caseSelectFacts, mem_generate_timeline⟩

theorem timelineMatches_single_entity (e : Uuid)
    (fromTime toTime : Option Timestamp) (f : Fact) :
    timelineMatches { entity_id := some e, fromTime := fromTime, toTime := toTime } f =
      ((fromTime.all (fun a => decide (a ≤ f.timestamp)) &&
        toTime.all (fun b => decide (f.timestamp ≤ b))) &&
       f.involves_any [e]) := by
  rw [Bool.eq_iff_iff]
  cases f <;> cases fromTime <;> cases toTime <;>
    simp [timelineMatches, Fact.involves_any, Fact.timestamp, Option.all,
      List.contains_cons] <;>
    tauto

/-- C5: with a single-entity related set, the Case Builder's
fact-selection step (filter + ascending sort, before dedup) returns
exactly the same fact list as `generate_timeline` for that entity id and
window, and both lists are sorted ascending by timestamp. -/
theorem generate_timeline_equals_case_selection :
    ∀ (db : GraphDb) (e : Uuid) (fromTime toTime : Option Timestamp),
      (generate_timeline db
          { entity_id := some e, fromTime := fromTime, toTime := toTime }).facts =
        caseSelectFacts db [e] fromTime toTime ∧
      ((generate_timeline db
          { entity_id := some e, fromTime := fromTime, toTime := toTime }).facts).Pairwise
        (fun a b => a.timestamp ≤ b.timestamp) ∧
      (caseSelectFacts db [e] fromTime toTime).Pairwise
        (fun a b => a.timestamp ≤ b.timestamp) := by
  intro db e fromTime toTime
  refine ⟨?_, sortFactsByTime_pairwise _, sortFactsByTime_pairwise _⟩
  simp only [generate_timeline, caseSelectFacts]
  congr 1
  apply List.filter_congr
  intro f _
  exact timelineMatches_single_entity e fromTime toTime f

/-! ## Claim C4: creation idempotence -/

theorem add_entity_event_log (db : GraphDb) (e : Entity) :
    (db.add_entity e).event_log = db.event_log := by
  rw [GraphDb.add_entity]
  split <;> rfl

theorem lookup_isSome_after_add_entity (db : GraphDb) (e : Entity) :
    (assocLookup e.id (db.add_entity e).uuid_index_map).isSome = true := by
  rw [GraphDb.add_entity]
  split
  · assumption
  · simp [assocLookup_insert_self]

theorem add_entity_noop {db : GraphDb} {e : Entity}
    (h : (assocLookup e.id db.uuid_index_map).isSome = true) :
    db.add_entity e = db := by
  rw [GraphDb.add_entity, if_pos h]

theorem add_entity_noop_same_id {db : GraphDb} {e1 e2 : Entity}
    (h : e2.id = e1.id) :
    (db.add_entity e1).add_entity e2 = db.add_entity e1 :=
  add_entity_noop (by rw [h]; exact lookup_isSome_after_add_entity db e1)

theorem applyFactLogged_entity_created (db : GraphDb) (entity_id : Uuid)
    (ts : Timestamp) (properties : Props) :
    applyFactLogged db (Fact.EntityCreated entity_id ts properties) =
      some { db.add_entity (mkCreatedEntity entity_id properties) with
             event_log := db.event_log ++ [Fact.EntityCreated entity_id ts properties] } := by
  simp [applyFactLogged, applyFactProj, add_entity_event_log]

theorem add_fact_singleton (db : GraphDb) (f : Fact) :
    db.add_fact { entities := [], relationships := [f] } = applyFactLogged db f := by
  cases h : applyFactLogged db f <;>
    simp [GraphDb.add_fact, applyFactsSeq, h, List.foldl]

/-- C4: creation idempotence.  A direct `add_entity` insertion repeated
with the same entity is absorbed, and applying a second `EntityCreated`
fact for an already-created id (any timestamp/properties) leaves the
projection — node set, edge set and identity index — exactly as after
the first application: the second application is a silent no-op on the
projection. -/
theorem entity_created_idempotent :
    ∀ (db : GraphDb) (e : Entity) (entity_id : Uuid) (ts ts' : Timestamp)
      (props props' : Props),
      let once : Option GraphDb := db.add_fact
        (FactStore.mk [] [Fact.EntityCreated entity_id ts props])
      let twice : Option GraphDb := db.add_fact
        (FactStore.mk [] [Fact.EntityCreated entity_id ts props,
                          Fact.EntityCreated entity_id ts' props'])
      (db.add_entity e).add_entity e = db.add_entity e ∧
      (twice.isSome = true ∧
       twice.map GraphDb.nodes = once.map GraphDb.nodes ∧
       twice.map GraphDb.edges = once.map GraphDb.edges ∧
       twice.map GraphDb.uuid_index_map = once.map GraphDb.uuid_index_map) := by
  intro db e entity_id ts ts' props props'
  refine ⟨add_entity_noop_same_id rfl, ?_⟩
  have h2 : (GraphDb.add_entity db (mkCreatedEntity entity_id props)).add_entity
      (mkCreatedEntity entity_id props') = db.add_entity (mkCreatedEntity entity_id props) :=
    add_entity_noop_same_id rfl
  have hnoop : GraphDb.add_entity
      { db.add_entity (mkCreatedEntity entity_id props) with
        event_log := db.event_log ++ [Fact.EntityCreated entity_id ts props] }
      (mkCreatedEntity entity_id props') =
      { db.add_entity (mkCreatedEntity entity_id props) with
        event_log := db.event_log ++ [Fact.EntityCreated entity_id ts props] } := by
    apply add_entity_noop
    show (assocLookup (mkCreatedEntity entity_id props').id
      (db.add_entity (mkCreatedEntity entity_id props)).uuid_index_map).isSome = true
    exact lookup_isSome_after_add_entity db (mkCreatedEntity entity_id props)
  simp [GraphDb.add_fact, applyFactsSeq, applyFactLogged, applyFactProj,
    add_entity_event_log, List.foldl, hnoop]

/-! ## Claim C9: RelationshipAdded with an unresolved endpoint -/

/-- C9: a `RelationshipAdded` fact whose `relationship_type` parses but
whose source or target id is not in the identity index leaves the
projection (nodes and edges) unchanged — a silent no-op, not an error —
while the fact is still appended to the event log. -/
theorem relationship_added_missing_endpoint_silent_noop :
    ∀ (db : GraphDb) (source_id target_id : Uuid) (rts : String)
      (rt : RelationshipType) (ts : Timestamp) (valid_from : Int)
      (valid_to : Option Int),
      RelationshipType.fromStr rts = some rt →
      (assocLookup source_id db.uuid_index_map = none ∨
       assocLookup target_id db.uuid_index_map = none) →
      db.add_fact (FactStore.mk []
          [Fact.RelationshipAdded source_id target_id rts ts valid_from valid_to]) =
        some { db with event_log :=
          db.event_log ++ [Fact.RelationshipAdded source_id target_id rts ts valid_from valid_to] } := by
  intro db source_id target_id rts rt ts valid_from valid_to hparse hmiss
  rw [add_fact_singleton]
  have hrel : db.add_relationship
      (Relationship.mk source_id target_id rt valid_from valid_to) = db := by
    rw [GraphDb.add_relationship]
    rcases hmiss with h | h
    · cases h2 : assocLookup target_id db.uuid_index_map <;> simp [h, h2]
    · cases h2 : assocLookup source_id db.uuid_index_map <;> simp [h, h2]
  simp [applyFactLogged, applyFactProj, hparse, hrel]

theorem relationship_added_missing_endpoint_silent_noop_witness :
    RelationshipType.fromStr "WorksAt" = some RelationshipType.WorksAt ∧
    assocLookup 1 GraphDb.new.uuid_index_map = none ∧
    GraphDb.new.add_fact (FactStore.mk []
        [Fact.RelationshipAdded 1 2 "WorksAt" 0 2020 none]) =
      some { GraphDb.new with
             event_log := [Fact.RelationshipAdded 1 2 "WorksAt" 0 2020 none] } :=
  ⟨rfl, rfl,
    relationship_added_missing_endpoint_silent_noop GraphDb.new 1 2 "WorksAt"
      RelationshipType.WorksAt 0 2020 none rfl (Or.inl rfl)⟩

/-! ## Claim C8: EntityUpdated merges properties -/

theorem updateEntityProps_lookup_self (up : Props) (i : Nat) :
    ∀ nodes : List (Nat × Entity),
      assocLookup i (updateEntityProps i up nodes) =
        (assocLookup i nodes).map
          (fun e => { e with properties := mergeProps e.properties up }) := by
  intro nodes
  induction nodes with
  | nil => rfl
  | cons p rest ih =>
      rw [updateEntityProps]
      split
      · rename_i hpi
        rw [assocLookup, assocLookup]
        simp only [if_pos hpi]
        rfl
      · rename_i hpi
        rw [assocLookup, assocLookup]
        simp only [if_neg hpi]
        exact ih

theorem updateEntityProps_lookup_ne (up : Props) {i j : Nat} (h : j ≠ i) :
    ∀ nodes : List (Nat × Entity),
      assocLookup j (updateEntityProps i up nodes) = assocLookup j nodes := by
  intro nodes
  induction nodes with
  | nil => rfl
  | cons p rest ih =>
      rw [updateEntityProps]
      split
      · rename_i hpi
        rw [assocLookup, assocLookup]
        have : ¬ p.1 = j := by rw [hpi]; exact fun hc => h hc.symm
        simp only [if_neg this]
      · rw [assocLookup, assocLookup]
        split
        · rfl
        · exact ih

/-- C8: applying `EntityUpdated` merges the updated keys into the
existing entity's properties (a key present in the update overwrites the
old binding, a key absent in the update keeps it) when the entity id is
indexed; when it is absent the store is unchanged; and in every case the
updated node keeps its `id`, `name` and `entity_type`.  The edge set,
index, log and allocator are never touched by the projection step. -/
theorem entity_updated_merges_properties :
    ∀ (db : GraphDb) (entity_id : Uuid) (ts : Timestamp) (up : Props),
      (up.map Prod.fst).Nodup →
      ∃ db2, applyFactProj db (Fact.EntityUpdated entity_id ts up) = some db2 ∧
        db2.edges = db.edges ∧ db2.uuid_index_map = db.uuid_index_map ∧
        db2.event_log = db.event_log ∧ db2.next_node_idx = db.next_node_idx ∧
        (assocLookup entity_id db.uuid_index_map = none → db2 = db) ∧
        (∀ e, db.get_entity entity_id = some e →
          db2.get_entity entity_id = some
            { id := e.id, name := e.name, entity_type := e.entity_type,
              properties := mergeProps e.properties up } ∧
          (∀ k, assocLookup k (mergeProps e.properties up) =
            match assocLookup k up with
            | some v => some v
            | none => assocLookup k e.properties)) := by
  intro db entity_id ts up hup
  cases hidx : assocLookup entity_id db.uuid_index_map with
  | none =>
      refine ⟨db, ?_, rfl, rfl, rfl, rfl, fun _ => rfl, ?_⟩
      · simp [applyFactProj, hidx]
      · intro e hget
        rw [GraphDb.get_entity, hidx] at hget
        cases hget
  | some node_idx =>
      refine ⟨{ db with nodes := updateEntityProps node_idx up db.nodes }, ?_, rfl, rfl,
        rfl, rfl, ?_, ?_⟩
      · simp [applyFactProj, hidx]
      · intro hc
        cases hc
      · intro e hget
        rw [GraphDb.get_entity, hidx, Option.some_bind] at hget
        constructor
        · rw [GraphDb.get_entity]
          show (assocLookup entity_id db.uuid_index_map).bind
            (fun idx => assocLookup idx (updateEntityProps node_idx up db.nodes)) = _
          rw [hidx, Option.some_bind, updateEntityProps_lookup_self, hget]
          rfl
        · intro k
          exact assocLookup_mergeProps hup k

theorem entity_updated_merges_properties_witness :
    (([("a", "2"), ("b", "3")] : Props).map Prod.fst).Nodup ∧
    ∃ db2,
      applyFactProj (GraphDb.new.add_entity (Entity.mk 5 "A" EntityType.Person [("a", "1")]))
        (Fact.EntityUpdated 5 0 [("a", "2"), ("b", "3")]) = some db2 ∧
      db2.get_entity 5 = some (Entity.mk 5 "A" EntityType.Person
        (mergeProps [("a", "1")] [("a", "2"), ("b", "3")])) := by
  refine ⟨by decide, ?_⟩
  obtain ⟨db2, h1, _, _, _, _, _, h7⟩ :=
    entity_updated_merges_properties
      (GraphDb.new.add_entity (Entity.mk 5 "A" EntityType.Person [("a", "1")]))
      5 0 [("a", "2"), ("b", "3")] (by decide)
  refine ⟨db2, h1, ?_⟩
  have hget : (GraphDb.new.add_entity (Entity.mk 5 "A" EntityType.Person [("a", "1")])).get_entity 5 =
      some (Entity.mk 5 "A" EntityType.Person [("a", "1")]) := rfl
  exact (h7 _ hget).1

/-! ## Claim C2: replay equivalence -/

theorem add_relationship_event_log (db : GraphDb) (r : Relationship) :
    (db.add_relationship r).event_log = db.event_log := by
  rw [GraphDb.add_relationship]
  split <;> rfl

theorem applyFactProj_event_log {db db2 : GraphDb} {f : Fact}
    (h : applyFactProj db f = some db2) : db2.event_log = db.event_log := by
  cases f with
  | EntityCreated entity_id ts properties =>
      rw [applyFactProj] at h
      injection h with h
      rw [← h, add_entity_event_log]
  | EntityUpdated entity_id ts updated_properties =>
      rw [applyFactProj] at h
      injection h with h
      rw [← h]
      cases assocLookup entity_id db.uuid_index_map <;> rfl
  | EntityDeleted entity_id ts =>
      rw [applyFactProj] at h
      injection h with h
      rw [← h]
      cases assocLookup entity_id db.uuid_index_map <;> rfl
  | RelationshipAdded source_id target_id rts ts valid_from valid_to =>
      rw [applyFactProj] at h
      cases hp : RelationshipType.fromStr rts with
      | none => rw [hp] at h; cases h
      | some rt =>
          rw [hp] at h
          injection h with h
          rw [← h, add_relationship_event_log]
  | RelationshipInvalidated source_id target_id ts =>
      rw [applyFactProj] at h
      injection h with h
      rw [← h]
      cases assocLookup source_id db.uuid_index_map <;>
        cases assocLookup target_id db.uuid_index_map <;> rfl

theorem applyFactLogged_event_log {db db2 : GraphDb} {f : Fact}
    (h : applyFactLogged db f = some db2) :
    db2.event_log = db.event_log ++ [f] := by
  rw [applyFactLogged] at h
  cases hp : applyFactProj db f with
  | none => rw [hp] at h; cases h
  | some p =>
      rw [hp] at h
      simp only [Option.map] at h
      injection h with h
      rw [← h]
      show p.event_log ++ [f] = db.event_log ++ [f]
      rw [applyFactProj_event_log hp]

theorem applyFactsSeq_event_log :
    ∀ (l : List Fact) (db db2 : GraphDb),
      applyFactsSeq db l = some db2 → db2.event_log = db.event_log ++ l := by
  intro l
  induction l with
  | nil =>
      intro db db2 h
      injection h with h
      rw [← h]
      simp
  | cons f rest ih =>
      intro db db2 h
      rw [applyFactsSeq] at h
      cases hl : applyFactLogged db f with
      | none => rw [hl] at h; cases h
      | some dbm =>
          rw [hl] at h
          rw [ih dbm db2 h, applyFactLogged_event_log hl]
          simp

theorem add_fact_empty_entities (db : GraphDb) (facts : List Fact) :
    db.add_fact (FactStore.mk [] facts) = applyFactsSeq db facts := rfl

theorem applyBatches_map_empty :
    ∀ (ls : List (List Fact)) (db : GraphDb),
      applyBatches db (ls.map (fun fs => FactStore.mk [] fs)) =
        applyFactsSeq db ls.flatten := by
  intro ls
  induction ls with
  | nil => intro db; rfl
  | cons fs rest ih =>
      intro db
      rw [List.map_cons, applyBatches, add_fact_empty_entities, List.flatten_cons]
      have happ : ∀ (l1 l2 : List Fact) (s : GraphDb),
          applyFactsSeq s (l1 ++ l2) =
            match applyFactsSeq s l1 with
            | some s2 => applyFactsSeq s2 l2
            | none => none := by
        intro l1
        induction l1 with
        | nil => intro l2 s; rfl
        | cons g gs ihg =>
            intro l2 s
            rw [List.cons_append, applyFactsSeq, applyFactsSeq]
            cases applyFactLogged s g
            · rfl
            · exact ihg l2 _
      rw [happ]
      cases applyFactsSeq db fs
      · rfl
      · exact ih _

theorem loadReplay_eq_applyFactsSeq :
    ∀ (l : List Fact) (db : GraphDb), loadReplay db l = applyFactsSeq db l := by
  intro l
  induction l with
  | nil => intro db; rfl
  | cons f rest ih =>
      intro db
      rw [loadReplay, add_fact_empty_entities]
      cases h : applyFactLogged db f with
      | none => simp [applyFactsSeq, h]
      | some d => simp [applyFactsSeq, h, ih d]

/-- C2: replay equivalence.  If a sequence of fact batches (no direct
entity insertions) applied from the empty store succeeds and produces
store `db`, then persisting the log and reloading it reproduces exactly
the same store — in particular the node set, edge set and all entity
properties of the projection are identical. -/
theorem replay_equivalence :
    ∀ (batches : List (List Fact)) (db : GraphDb),
      applyBatches GraphDb.new (batches.map (fun fs => FactStore.mk [] fs)) = some db →
      load_from_file db.persist_facts = some db := by
  intro batches db h
  rw [applyBatches_map_empty] at h
  have hlog : db.event_log = batches.flatten := by
    have h2 := applyFactsSeq_event_log _ _ _ h
    simpa [GraphDb.new] using h2
  rw [GraphDb.persist_facts, load_from_file, loadReplay_eq_applyFactsSeq, hlog]
  exact h

theorem replay_equivalence_witness :
    (applyBatches GraphDb.new
        ([[Fact.EntityCreated 1 0 [("name", "Alice"), ("type", "Person")]],
          [Fact.EntityCreated 2 0 [("name", "Acme"), ("type", "Company")],
           Fact.RelationshipAdded 1 2 "WorksAt" 1 2020 none]].map
          (fun fs => FactStore.mk [] fs))).isSome = true ∧
    ∀ db, applyBatches GraphDb.new
        ([[Fact.EntityCreated 1 0 [("name", "Alice"), ("type", "Person")]],
          [Fact.EntityCreated 2 0 [("name", "Acme"), ("type", "Company")],
           Fact.RelationshipAdded 1 2 "WorksAt" 1 2020 none]].map
          (fun fs => FactStore.mk [] fs)) = some db →
      load_from_file db.persist_facts = some db :=
  ⟨by decide, fun db h => replay_equivalence _ db h⟩

/-! ## Claim C10: identity index / node set consistency -/

theorem storeInvariant_new : StoreInvariant GraphDb.new := by
  refine ⟨?_, ?_, ?_, ?_⟩ <;> simp [GraphDb.new, assocLookup]

theorem assocLookup_append_left_none {α β : Type} [DecidableEq α] {k : α}
    {l1 : List (α × β)} (h : assocLookup k l1 = none) (l2 : List (α × β)) :
    assocLookup k (l1 ++ l2) = assocLookup k l2 := by
  rw [assocLookup_append, h]

theorem storeInvariant_add_entity {db : GraphDb} (hInv : StoreInvariant db)
    (e : Entity) : StoreInvariant (db.add_entity e) := by
  obtain ⟨hA, hB, hC, hD⟩ := hInv
  by_cases hpres : (assocLookup e.id db.uuid_index_map).isSome = true
  · rw [add_entity_noop hpres]
    exact ⟨hA, hB, hC, hD⟩
  · have heq : db.add_entity e =
        { db with
          nodes := db.nodes ++ [(db.next_node_idx, e)],
          uuid_index_map := assocInsert e.id db.next_node_idx db.uuid_index_map,
          next_node_idx := db.next_node_idx + 1 } := by
      rw [GraphDb.add_entity, if_neg hpres]
    rw [heq]
    have hfresh : db.next_node_idx ∉ db.nodes.map Prod.fst := by
      intro hmem
      obtain ⟨p, hp, hfst⟩ := List.mem_map.mp hmem
      exact absurd hfst (Nat.ne_of_lt (hA p hp))
    refine ⟨?_, ?_, ?_, ?_⟩
    · show ∀ p ∈ db.nodes ++ [(db.next_node_idx, e)], p.1 < db.next_node_idx + 1
      intro p hp
      rcases List.mem_append.mp hp with hp | hp
      · exact Nat.lt_succ_of_lt (hA p hp)
      · rw [List.mem_singleton] at hp
        rw [hp]
        exact Nat.lt_succ_self _
    · show ((db.nodes ++ [(db.next_node_idx, e)]).map Prod.fst).Nodup
      rw [List.map_append, List.nodup_append]
      refine ⟨hB, by simp, ?_⟩
      intro x hx
      simp only [List.map_cons, List.map_nil, List.mem_singleton]
      intro hx2
      exact hfresh (hx2 ▸ hx)
    · show ∀ u i, assocLookup u (assocInsert e.id db.next_node_idx db.uuid_index_map) = some i →
        ∃ e2, assocLookup i (db.nodes ++ [(db.next_node_idx, e)]) = some e2 ∧ e2.id = u
      intro u i hu
      by_cases hue : u = e.id
      · subst hue
        rw [assocLookup_insert_self] at hu
        injection hu with hu
        subst hu
        refine ⟨e, ?_, rfl⟩
        rw [assocLookup_append_left_none
          (assocLookup_eq_none_of_not_mem_keys hfresh), assocLookup]
        simp
      · rw [assocLookup_insert_ne _ hue] at hu
        obtain ⟨e2, he2, hid⟩ := hC u i hu
        refine ⟨e2, ?_, hid⟩
        rw [assocLookup_append, he2]
    · show ∀ p ∈ db.nodes ++ [(db.next_node_idx, e)],
        assocLookup p.2.id (assocInsert e.id db.next_node_idx db.uuid_index_map) = some p.1
      intro p hp
      rcases List.mem_append.mp hp with hp | hp
      · have hne : p.2.id ≠ e.id := by
          intro hc
          apply hpres
          rw [← hc, hD p hp]
          rfl
        rw [assocLookup_insert_ne _ hne]
        exact hD p hp
      · rw [List.mem_singleton] at hp
        rw [hp]
        exact assocLookup_insert_self _ _ _

theorem updateEntityProps_map_fst (i : Nat) (up : Props) :
    ∀ l : List (Nat × Entity),
      (updateEntityProps i up l).map Prod.fst = l.map Prod.fst := by
  intro l
  induction l with
  | nil => rfl
  | cons p rest ih =>
      rw [updateEntityProps]
      split
      · simp
      · rw [List.map_cons, List.map_cons, ih]

theorem updateEntityProps_mem {i : Nat} {up : Props} :
    ∀ {l : List (Nat × Entity)} {p : Nat × Entity}, p ∈ updateEntityProps i up l →
      ∃ q ∈ l, p.1 = q.1 ∧ p.2.id = q.2.id := by
  intro l
  induction l with
  | nil => intro p hp; cases hp
  | cons q rest ih =>
      intro p hp
      rw [updateEntityProps] at hp
      split at hp
      · rcases List.mem_cons.mp hp with hp | hp
        · exact ⟨q, List.mem_cons_self _ _, by rw [hp], by rw [hp]⟩
        · exact ⟨p, List.mem_cons_of_mem _ hp, rfl, rfl⟩
      · rcases List.mem_cons.mp hp with hp | hp
        · exact ⟨q, List.mem_cons_self _ _, by rw [hp], by rw [hp]⟩
        · obtain ⟨q2, hq2, h1, h2⟩ := ih hp
          exact ⟨q2, List.mem_cons_of_mem _ hq2, h1, h2⟩

theorem assocLookup_filter_key_ne {β : Type} {j idx : Nat} (h : j ≠ idx) :
    ∀ l : List (Nat × β),
      assocLookup j (l.filter (fun p => decide (p.1 ≠ idx))) = assocLookup j l := by
  intro l
  induction l with
  | nil => rfl
  | cons p rest ih =>
      by_cases hpi : p.1 = idx
      · rw [List.filter_cons_of_neg (by simp [hpi]), ih, assocLookup,
            if_neg (fun hc : p.1 = j => h (hc ▸ hpi.symm ▸ rfl))]
      · rw [List.filter_cons_of_pos (by simp [hpi]), assocLookup, assocLookup]
        split
        · rfl
        · exact ih

theorem assocLookup_fun {α β : Type} [DecidableEq α] {k : α} {v v2 : β}
    {l : List (α × β)} (h1 : assocLookup k l = some v)
    (h2 : assocLookup k l = some v2) : v = v2 := by
  rw [h1] at h2
  injection h2

theorem storeInvariant_applyFactProj {db db2 : GraphDb} {f : Fact}
    (h : applyFactProj db f = some db2) (hInv : StoreInvariant db) :
    StoreInvariant db2 := by
  cases f with
  | EntityCreated entity_id ts properties =>
      rw [applyFactProj] at h
      injection h with h
      rw [← h]
      exact storeInvariant_add_entity hInv _
  | EntityUpdated entity_id ts up =>
      rw [applyFactProj] at h
      cases hidx : assocLookup entity_id db.uuid_index_map with
      | none =>
          rw [hidx] at h
          injection h with h
          rw [← h]
          exact hInv
      | some idx =>
          rw [hidx] at h
          injection h with h
          rw [← h]
          obtain ⟨hA, hB, hC, hD⟩ := hInv
          refine ⟨?_, ?_, ?_, ?_⟩
          · show ∀ p ∈ updateEntityProps idx up db.nodes, p.1 < db.next_node_idx
            intro p hp
            obtain ⟨q, hq, h1, _⟩ := updateEntityProps_mem hp
            rw [h1]
            exact hA q hq
          · show ((updateEntityProps idx up db.nodes).map Prod.fst).Nodup
            rw [updateEntityProps_map_fst]
            exact hB
          · show ∀ u i, assocLookup u db.uuid_index_map = some i →
              ∃ e2, assocLookup i (updateEntityProps idx up db.nodes) = some e2 ∧ e2.id = u
            intro u i hu
            obtain ⟨e2, he2, hid⟩ := hC u i hu
            by_cases hi : i = idx
            · subst hi
              refine ⟨{ e2 with properties := mergeProps e2.properties up }, ?_, hid⟩
              rw [updateEntityProps_lookup_self, he2]
              rfl
            · refine ⟨e2, ?_, hid⟩
              rw [updateEntityProps_lookup_ne _ hi, he2]
          · show ∀ p ∈ updateEntityProps idx up db.nodes,
              assocLookup p.2.id db.uuid_index_map = some p.1
            intro p hp
            obtain ⟨q, hq, h1, h2⟩ := updateEntityProps_mem hp
            rw [h2, h1]
            exact hD q hq
  | EntityDeleted entity_id ts =>
      rw [applyFactProj] at h
      cases hidx : assocLookup entity_id db.uuid_index_map with
      | none =>
          rw [hidx] at h
          injection h with h
          rw [← h]
          exact hInv
      | some idx =>
          rw [hidx] at h
          injection h with h
          rw [← h]
          obtain ⟨hA, hB, hC, hD⟩ := hInv
          refine ⟨?_, ?_, ?_, ?_⟩
          · show ∀ p ∈ db.nodes.filter (fun p => decide (p.1 ≠ idx)), p.1 < db.next_node_idx
            intro p hp
            exact hA p (List.mem_of_mem_filter hp)
          · show ((db.nodes.filter (fun p => decide (p.1 ≠ idx))).map Prod.fst).Nodup
            exact hB.sublist (List.Sublist.map Prod.fst (List.filter_sublist db.nodes))
          · show ∀ u i, assocLookup u (assocRemove entity_id db.uuid_index_map) = some i →
              ∃ e2, assocLookup i (db.nodes.filter (fun p => decide (p.1 ≠ idx))) = some e2 ∧
                e2.id = u
            intro u i hu
            by_cases hue : u = entity_id
            · subst hue
              rw [assocLookup_remove_self] at hu
              cases hu
            · rw [assocLookup_remove_ne hue] at hu
              obtain ⟨e2, he2, hid⟩ := hC u i hu
              have hi : i ≠ idx := by
                intro hc
                subst hc
                obtain ⟨e3, he3, hid2⟩ := hC entity_id i hidx
                apply hue
                rw [← hid, ← hid2, assocLookup_fun he2 he3]
              refine ⟨e2, ?_, hid⟩
              rw [assocLookup_filter_key_ne hi, he2]
          · show ∀ p ∈ db.nodes.filter (fun p => decide (p.1 ≠ idx)),
              assocLookup p.2.id (assocRemove entity_id db.uuid_index_map) = some p.1
            intro p hp
            have hp2 := List.mem_of_mem_filter hp
            have hkeep : decide (p.1 ≠ idx) = true := (List.mem_filter.mp hp).2
            have hne : p.2.id ≠ entity_id := by
              intro hc
              have hd := hD p hp2
              rw [hc, hidx] at hd
              injection hd with hd
              rw [← hd] at hkeep
              simp at hkeep
            rw [assocLookup_remove_ne hne]
            exact hD p hp2
  | RelationshipAdded source_id target_id rts ts valid_from valid_to =>
      rw [applyFactProj] at h
      cases hp : RelationshipType.fromStr rts with
      | none => rw [hp] at h; cases h
      | some rt =>
          rw [hp] at h
          injection h with h
          rw [← h]
          cases h1 : assocLookup source_id db.uuid_index_map <;>
            cases h2 : assocLookup target_id db.uuid_index_map <;>
            simp only [GraphDb.add_relationship, h1, h2] <;>
            exact hInv
  | RelationshipInvalidated source_id target_id ts =>
      rw [applyFactProj] at h
      injection h with h
      rw [← h]
      cases h1 : assocLookup source_id db.uuid_index_map <;>
        cases h2 : assocLookup target_id db.uuid_index_map <;>
        exact hInv

theorem storeInvariant_applyFactLogged {db db2 : GraphDb} {f : Fact}
    (h : applyFactLogged db f = some db2) (hInv : StoreInvariant db) :
    StoreInvariant db2 := by
  rw [applyFactLogged] at h
  cases hp : applyFactProj db f with
  | none => rw [hp] at h; cases h
  | some p =>
      rw [hp] at h
      simp only [Option.map] at h
      injection h with h
      rw [← h]
      exact @storeInvariant_applyFactProj db p f hp hInv

theorem storeInvariant_applyFactsSeq :
    ∀ (l : List Fact) (db db2 : GraphDb),
      applyFactsSeq db l = some db2 → StoreInvariant db → StoreInvariant db2 := by
  intro l
  induction l with
  | nil =>
      intro db db2 h hInv
      injection h with h
      rw [← h]
      exact hInv
  | cons f rest ih =>
      intro db db2 h hInv
      rw [applyFactsSeq] at h
      cases hl : applyFactLogged db f with
      | none => rw [hl] at h; cases h
      | some dbm =>
          rw [hl] at h
          exact ih dbm db2 h (storeInvariant_applyFactLogged hl hInv)

theorem storeInvariant_foldl_add_entity :
    ∀ (es : List Entity) (db : GraphDb),
      StoreInvariant db → StoreInvariant (es.foldl GraphDb.add_entity db) := by
  intro es
  induction es with
  | nil => intro db h; exact h
  | cons e rest ih =>
      intro db h
      exact ih _ (storeInvariant_add_entity h e)

theorem storeInvariant_add_fact {db db2 : GraphDb} {fs : FactStore}
    (h : db.add_fact fs = some db2) (hInv : StoreInvariant db) :
    StoreInvariant db2 := by
  rw [GraphDb.add_fact] at h
  exact storeInvariant_applyFactsSeq _ _ _ h
    (storeInvariant_foldl_add_entity fs.entities db hInv)

theorem storeInvariant_applyBatches :
    ∀ (batches : List FactStore) (db db2 : GraphDb),
      applyBatches db batches = some db2 → StoreInvariant db → StoreInvariant db2 := by
  intro batches
  induction batches with
  | nil =>
      intro db db2 h hInv
      injection h with h
      rw [← h]
      exact hInv
  | cons fs rest ih =>
      intro db db2 h hInv
      rw [applyBatches] at h
      cases hf : db.add_fact fs with
      | none => rw [hf] at h; cases h
      | some dbm =>
          rw [hf] at h
          exact ih dbm db2 h (storeInvariant_add_fact hf hInv)

/-- C10: after any sequence of `add_fact` batches applied from the
empty store, the identity index and the node set are consistent: every
indexed uuid maps to a live node whose entity carries that uuid, every
live node's entity id is indexed (pointing back at the node), and
`get_entity u` is `some` exactly when a node with entity id `u` lives in
the projection. -/
theorem index_and_nodes_stay_consistent :
    ∀ (batches : List FactStore) (db : GraphDb),
      applyBatches GraphDb.new batches = some db →
      indexNodesConsistent db ∧
      (∀ u : Uuid, (db.get_entity u).isSome = true ↔ ∃ p ∈ db.nodes, p.2.id = u) := by
  intro batches db h
  obtain ⟨hA, hB, hC, hD⟩ := storeInvariant_applyBatches batches GraphDb.new db h storeInvariant_new
  refine ⟨⟨hC, hD⟩, ?_⟩
  intro u
  constructor
  · intro hsome
    rw [GraphDb.get_entity] at hsome
    cases hu : assocLookup u db.uuid_index_map with
    | none => rw [hu] at hsome; cases hsome
    | some i =>
        obtain ⟨e, he, hid⟩ := hC u i hu
        exact ⟨(i, e), assocLookup_mem he, hid⟩
  · rintro ⟨p, hp, hid⟩
    have hd := hD p hp
    rw [hid] at hd
    obtain ⟨e, he, _⟩ := hC u p.1 hd
    rw [GraphDb.get_entity, hd, Option.some_bind, he]
    rfl

theorem index_and_nodes_stay_consistent_witness :
    indexNodesConsistent
      { nodes := [(0, Entity.mk 7 "X" EntityType.Person []),
                  (1, Entity.mk 8 "" EntityType.Unknown [])],
        edges := [], uuid_index_map := [(7, 0), (8, 1)],
        event_log := [Fact.EntityCreated 8 0 []], next_node_idx := 2 } ∧
    (∀ u : Uuid,
      (GraphDb.get_entity
        { nodes := [(0, Entity.mk 7 "X" EntityType.Person []),
                    (1, Entity.mk 8 "" EntityType.Unknown [])],
          edges := [], uuid_index_map := [(7, 0), (8, 1)],
          event_log := [Fact.EntityCreated 8 0 []], next_node_idx := 2 } u).isSome = true ↔
      ∃ p ∈ [(0, Entity.mk 7 "X" EntityType.Person []),
             (1, Entity.mk 8 "" EntityType.Unknown [])], p.2.id = u) :=
  index_and_nodes_stay_consistent
    [FactStore.mk [Entity.mk 7 "X" EntityType.Person []] [Fact.EntityCreated 8 0 []]]
    _ (by decide)

/-! ## Claim C3: BFS depth bound -/

theorem bfsLoop_nil (db : GraphDb) (md : Nat) (vis rel : List Uuid) :
    bfsLoop db md [] vis rel = rel := by
  rw [bfsLoop.eq_1]

theorem bfsLoop_cons_skip {db : GraphDb} {md ni depth : Nat}
    {rest : List (Nat × Nat)} {vis rel : List Uuid} (h : depth > md) :
    bfsLoop db md ((ni, depth) :: rest) vis rel = bfsLoop db md rest vis rel := by
  rw [bfsLoop.eq_2, if_pos h]

theorem bfsLoop_cons_none {db : GraphDb} {md ni depth : Nat}
    {rest : List (Nat × Nat)} {vis rel : List Uuid} (h1 : ¬ depth > md)
    (h2 : assocLookup ni db.nodes = none) :
    bfsLoop db md ((ni, depth) :: rest) vis rel = bfsLoop db md rest vis rel := by
  rw [bfsLoop.eq_2, if_neg h1]
  split
  · rfl
  · rename_i e heq
    rw [h2] at heq
    cases heq

theorem bfsLoop_cons_visited {db : GraphDb} {md ni depth : Nat}
    {rest : List (Nat × Nat)} {vis rel : List Uuid} {e : Entity}
    (h1 : ¬ depth > md) (h2 : assocLookup ni db.nodes = some e)
    (h3 : e.id ∈ vis) :
    bfsLoop db md ((ni, depth) :: rest) vis rel = bfsLoop db md rest vis rel := by
  rw [bfsLoop.eq_2, if_neg h1]
  split
  · rfl
  · rename_i e2 heq
    rw [h2] at heq
    injection heq with heq
    subst heq
    rw [if_pos h3]

theorem bfsLoop_cons_new {db : GraphDb} {md ni depth : Nat}
    {rest : List (Nat × Nat)} {vis rel : List Uuid} {e : Entity}
    (h1 : ¬ depth > md) (h2 : assocLookup ni db.nodes = some e)
    (h3 : e.id ∉ vis) :
    bfsLoop db md ((ni, depth) :: rest) vis rel =
      bfsLoop db md (rest ++ (db.neighborsOut ni).map (fun n => (n, depth + 1)))
        (e.id :: vis) (rel ++ [e.id]) := by
  rw [bfsLoop.eq_2, if_neg h1]
  split
  · rename_i heq
    rw [h2] at heq
    cases heq
  · rename_i e2 heq
    rw [h2] at heq
    injection heq with heq
    subst heq
    rw [if_neg h3]

theorem neighborsOut_mem {db : GraphDb} {i n : Nat}
    (h : n ∈ db.neighborsOut i) : ∃ r, (i, n, r) ∈ db.edges := by
  rw [GraphDb.neighborsOut] at h
  obtain ⟨ed, hed, hf⟩ := List.mem_filterMap.mp h
  by_cases hi : ed.1 = i
  · rw [if_pos hi] at hf
    injection hf with hf
    refine ⟨ed.2.2, ?_⟩
    have : (i, n, ed.2.2) = ed := by rw [← hi, ← hf]
    rw [this]
    exact hed
  · rw [if_neg hi] at hf
    cases hf

theorem bfsLoop_sound (db : GraphDb) (max_depth : Nat) (s : Nat) :
    ∀ (queue : List (Nat × Nat)) (visited related : List Uuid),
      (∀ pr ∈ queue, OutReach db s pr.2 pr.1) →
      (∀ id ∈ related, ∃ n i e, n ≤ max_depth ∧ OutReach db s n i ∧
          assocLookup i db.nodes = some e ∧ e.id = id) →
      ∀ id ∈ bfsLoop db max_depth queue visited related,
        ∃ n i e, n ≤ max_depth ∧ OutReach db s n i ∧
          assocLookup i db.nodes = some e ∧ e.id = id := by
  intro queue visited related
  induction queue, visited, related using bfsLoop.induct db max_depth with
  | case1 visited related =>
      intro _ hrel id hid
      rw [bfsLoop_nil] at hid
      exact hrel id hid
  | case2 ni depth rest visited related hdepth ih =>
      intro hq hrel id hid
      rw [bfsLoop_cons_skip hdepth] at hid
      exact ih (fun pr hpr => hq pr (List.mem_cons_of_mem _ hpr)) hrel id hid
  | case3 ni depth rest visited related hdepth hlook ih =>
      intro hq hrel id hid
      rw [bfsLoop_cons_none hdepth hlook] at hid
      exact ih (fun pr hpr => hq pr (List.mem_cons_of_mem _ hpr)) hrel id hid
  | case4 ni depth rest visited related hdepth e hlook hvis ih =>
      intro hq hrel id hid
      rw [bfsLoop_cons_visited hdepth hlook hvis] at hid
      exact ih (fun pr hpr => hq pr (List.mem_cons_of_mem _ hpr)) hrel id hid
  | case5 ni depth rest visited related hdepth e hlook hvis ih =>
      intro hq hrel id hid
      rw [bfsLoop_cons_new hdepth hlook hvis] at hid
      have hreach : OutReach db s depth ni := hq (ni, depth) (List.mem_cons_self _ _)
      refine ih ?_ ?_ id hid
      · intro pr hpr
        rcases List.mem_append.mp hpr with hpr | hpr
        · exact hq pr (List.mem_cons_of_mem _ hpr)
        · obtain ⟨n, hn, hpr2⟩ := List.mem_map.mp hpr
          obtain ⟨r, hr⟩ := neighborsOut_mem hn
          rw [← hpr2]
          exact OutReach.step hreach hr
      · intro id2 hid2
        rcases List.mem_append.mp hid2 with hid2 | hid2
        · exact hrel id2 hid2
        · rw [List.mem_singleton] at hid2
          subst hid2
          exact ⟨depth, ni, e, Nat.le_of_not_lt hdepth, hreach, hlook, rfl⟩

/-- C3: BFS depth bound.  Every entity id in the built Case's
`related_entity_ids` is reachable from the seed along outgoing edges in
at most `max_depth` hops (`OutReach` follows edges only from source to
target, so incoming edges are never traversed), and contrapositively no
entity that is not reachable within `max_depth` outgoing hops — in
particular one whose shortest outgoing-path distance exceeds
`max_depth` — ever appears in `related_entity_ids`. -/
theorem case_related_entities_depth_bound :
    ∀ (b : CaseBuilder) (db : GraphDb) (name description : String)
      (case_id : Uuid) (now : Timestamp),
      (∀ id ∈ (b.build db name description case_id now).related_entity_ids,
        ReachableIdWithin db b.seed_entity_id b.max_depth id) ∧
      (∀ id : Uuid, ¬ ReachableIdWithin db b.seed_entity_id b.max_depth id →
        id ∉ (b.build db name description case_id now).related_entity_ids) := by
  intro b db name description case_id now
  have hmain : ∀ id ∈ collect_related_entities db b.seed_entity_id b.max_depth,
      ReachableIdWithin db b.seed_entity_id b.max_depth id := by
    intro id hid
    rw [collect_related_entities] at hid
    cases hseed : assocLookup b.seed_entity_id db.uuid_index_map with
    | none =>
        rw [hseed] at hid
        cases hid
    | some start_idx =>
        rw [hseed] at hid
        obtain ⟨n, i, e, hn, hr, he, hide⟩ :=
          bfsLoop_sound db b.max_depth start_idx [(start_idx, 0)] [] []
            (by
              intro pr hpr
              rw [List.mem_singleton] at hpr
              rw [hpr]
              exact OutReach.here)
            (by intro id2 h2; cases h2) id hid
        exact ⟨start_idx, n, i, e, hseed, hn, hr, he, hide⟩
  have hbuild : (b.build db name description case_id now).related_entity_ids =
      collect_related_entities db b.seed_entity_id b.max_depth := rfl
  rw [hbuild]
  exact ⟨hmain, fun id hnr hmem => hnr (hmain id hmem)⟩

/-- A two-node store with one directed edge, used by the C3 witness. -/
def bfsWitnessDb : GraphDb :=
  { nodes := [(0, Entity.mk 10 "A" EntityType.Person []),
              (1, Entity.mk 11 "B" EntityType.Company [])],
    edges := [(0, 1, Relationship.mk 10 11 RelationshipType.WorksAt 2020 none)],
    uuid_index_map := [(10, 0), (11, 1)],
    event_log := [],
    next_node_idx := 2 }

theorem case_related_entities_depth_bound_witness :
    11 ∈ ((CaseBuilder.new 10).build bfsWitnessDb "c" "d" 99 0).related_entity_ids ∧
    ReachableIdWithin bfsWitnessDb 10 2 11 := by
  have hmem : 11 ∈ ((CaseBuilder.new 10).build bfsWitnessDb "c" "d" 99 0).related_entity_ids := by
    show 11 ∈ collect_related_entities bfsWitnessDb 10 2
    show 11 ∈ bfsLoop bfsWitnessDb 2 [(0, 0)] [] []
    rw [bfsLoop_cons_new (by norm_num)
          (show assocLookup 0 bfsWitnessDb.nodes =
            some (Entity.mk 10 "A" EntityType.Person []) from rfl)
          (by decide),
        show GraphDb.neighborsOut bfsWitnessDb 0 = [1] from rfl]
    simp only [List.nil_append, List.map_cons, List.map_nil]
    rw [bfsLoop_cons_new (by norm_num)
          (show assocLookup 1 bfsWitnessDb.nodes =
            some (Entity.mk 11 "B" EntityType.Company []) from rfl)
          (by decide),
        show GraphDb.neighborsOut bfsWitnessDb 1 = [] from rfl]
    simp only [List.map_nil, List.append_nil, List.nil_append]
    rw [bfsLoop_nil]
    norm_num
  exact ⟨hmem,
    (case_related_entities_depth_bound (CaseBuilder.new 10) bfsWitnessDb "c" "d" 99 0).1
      11 hmem⟩

end H3imd3ll